import Mathlib

/-!
Verification of the knowledge accumulation and retrieval core of the
interactive knowledge CLI (`knowledge_cli.py`).

Text is modelled as `List Char` (Python `str`); slicing `s[:n]` is
`List.take n`, `s[-n:]` is `List.drop (length - n)`.  The persisted
knowledge document is a structure whose `core_instructions` mapping is an
insertion-ordered association list, matching Python `dict` semantics
(assignment to an existing key overwrites in place, a fresh key is
appended at the end).  Timestamps (`datetime.now().isoformat()`) are
passed in as an explicit parameter `now`.
-/

/-- Python `str` modelled as a list of characters. -/
abbrev Str := List Char

/-- Python `str.lower()`, character-wise lowering. -/
def lowerStr (s : Str) : Str := s.map Char.toLower

/-- `startsWith p s` is Python `s.startswith(p)`. -/
def startsWith : Str → Str → Bool
  | [], _ => true
  | _ :: _, [] => false
  | p :: ps, c :: cs => p = c && startsWith ps cs

/-- `containsSub needle hay` is Python `needle in hay` (substring test). -/
def containsSub (needle : Str) : Str → Bool
  | [] => needle = []
  | c :: cs => startsWith needle (c :: cs) || containsSub needle cs

/-- Python `str.strip()`: drop whitespace from both ends. -/
def pyStrip (s : Str) : Str :=
  ((s.dropWhile Char.isWhitespace).reverse.dropWhile Char.isWhitespace).reverse

/-- Python `response.split('\n')`: split on every newline, `"".split('\n') = [""]`. -/
def splitLines : Str → List Str
  | [] => [[]]
  | c :: cs =>
    match splitLines cs with
    | [] => [[]]
    | l :: ls => if c = '\n' then [] :: l :: ls else (c :: l) :: ls

/-- Python `"\n".join(items)`. -/
def joinLines : List Str → Str
  | [] => []
  | [s] => s
  | s :: l :: ls => s ++ '\n' :: joinLines (l :: ls)

/-- One value of the `core_instructions` mapping
(`knowledge_cli.py` lines 128-133). -/
structure InstructionEntry where
  timestamp : Str
  instructions : Str
  usage_count : Nat
  source_conversation : Nat
deriving Repr, DecidableEq

/-- An element of the `conversations` sequence: either the short per-query
form built by `add_to_knowledge` (lines 103-108) or the batch form built
by `save_conversation` (lines 225-229). -/
inductive ConversationRecord where
  | short (timestamp query response : Str) (context : List Str)
  | batch (timestamp : Str) (history : List (Str × Str)) (context : List Str)
deriving Repr, DecidableEq

/-- The persisted knowledge document.  `core_instructions` is an
insertion-ordered association list modelling the Python dict. -/
structure Knowledge where
  summary : List Str
  core_instructions : List (Str × InstructionEntry)
  api_interactions : List Str
  conversations : List ConversationRecord
deriving Repr, DecidableEq

/-- The default empty document supplied by `load_knowledge` on any
read/parse failure (line 79). -/
def default_knowledge : Knowledge :=
  { summary := [], core_instructions := [], api_interactions := [], conversations := [] }

/-- Python dict assignment `d[key] = e` on an insertion-ordered
association list: overwrite in place if the key exists, else append. -/
def assocSet (key : Str) (e : InstructionEntry) :
    List (Str × InstructionEntry) → List (Str × InstructionEntry)
  | [] => [(key, e)]
  | (k0, e0) :: rest =>
    if k0 = key then (key, e) :: rest else (k0, e0) :: assocSet key e rest

/-- Key membership in the association list (Python `key in d`). -/
def hasKey (key : Str) : List (Str × InstructionEntry) → Bool
  | [] => false
  | (k0, _) :: rest => k0 = key || hasKey key rest

/-- The marker tuple of `line.strip().startswith((...))`, line 120. -/
def markers : List Str :=
  [['1', '.'], ['2', '.'], ['3', '.'], ['4', '.'], ['5', '.'],
   ['-', ' '], ['*', ' '], ['•', ' ']]

/-- The core-point test of lines 120-121: the stripped line starts with a
marker, or the lowered line contains `key point` or `important:`. -/
def isCorePoint (line : Str) : Bool :=
  markers.any (fun m => startsWith m (pyStrip line)) ||
  containsSub ('k' :: 'e' :: 'y' :: ' ' :: 'p' :: 'o' :: 'i' :: 'n' :: 't' :: []) (lowerStr line) ||
  containsSub ('i' :: 'm' :: 'p' :: 'o' :: 'r' :: 't' :: 'a' :: 'n' :: 't' :: ':' :: []) (lowerStr line)

/-- The collection loop of lines 119-124: append `line.strip()` for each
matching line, stop once 3 are collected. -/
def core_points_loop : List Str → List Str → List Str
  | [], acc => acc
  | l :: ls, acc =>
    if isCorePoint l then
      let acc2 := acc ++ [pyStrip l]
      if 3 ≤ acc2.length then acc2 else core_points_loop ls acc2
    else core_points_loop ls acc

/-- The topic key of line 127: `query[:50] + ("..." if len(query) > 50 else "")`. -/
def mkTopic (query : Str) : Str :=
  query.take 50 ++ (if 50 < query.length then ['.', '.', '.'] else [])

/-- `InteractiveKnowledgeCLI.add_to_knowledge` (lines 98-135): append the
short conversation record (query truncated to 500 chars, response to
1000), extract up to 3 core points, and when at least one was found
write/overwrite `core_instructions[topic]`. -/
def add_to_knowledge (now : Str) (current_context : List Str)
    (query response : Str) (knowledge : Knowledge) : Knowledge :=
  let conversation : ConversationRecord :=
    .short now (query.take 500) (response.take 1000) current_context
  let convs := knowledge.conversations ++ [conversation]
  let core_points := core_points_loop (splitLines response) []
  let k1 := { knowledge with conversations := convs }
  if core_points.isEmpty then k1
  else
    let entry : InstructionEntry :=
      { timestamp := now
        instructions := joinLines core_points
        usage_count := 1
        source_conversation := convs.length - 1 }
    { k1 with core_instructions := assocSet (mkTopic query) entry k1.core_instructions }

example :
    (add_to_knowledge ['t'] [] ['q']
      (('1' :: '.' :: ' ' :: 'a' :: '\n' :: '2' :: '.' :: ' ' :: 'b' :: []))
      default_knowledge).core_instructions =
    [(['q'], { timestamp := ['t'],
               instructions := '1' :: '.' :: ' ' :: 'a' :: '\n' :: '2' :: '.' :: ' ' :: 'b' :: [],
               usage_count := 1, source_conversation := 0 })] := by decide

/-- The match test of `search_knowledge` lines 88-89: case-insensitive
substring of the query in the topic key or in the instruction text. -/
def matchesQuery (query_lower : Str) (topic : Str) (e : InstructionEntry) : Bool :=
  containsSub query_lower (lowerStr topic) || containsSub query_lower (lowerStr e.instructions)

/-- The accumulation loop of `search_knowledge` lines 87-94; the constant
`"type": "core_instructions"` field of each appended result dict is
omitted, keeping the `topic`/`content` pair. -/
def search_loop (query_lower : Str) : List (Str × InstructionEntry) → List (Str × InstructionEntry)
  | [] => []
  | (topic, e) :: rest =>
    if matchesQuery query_lower topic e then (topic, e) :: search_loop query_lower rest
    else search_loop query_lower rest

/-- `InteractiveKnowledgeCLI.search_knowledge` (lines 81-96), with the
loaded document passed explicitly. -/
def search_knowledge (knowledge : Knowledge) (query : Str) : List (Str × InstructionEntry) :=
  search_loop (lowerStr query) knowledge.core_instructions

/-- `InteractiveKnowledgeCLI.save_conversation` (lines 220-234): append a
batch record when the running history is non-empty. -/
def save_conversation (now : Str) (conversation_history : List (Str × Str))
    (current_context : List Str) (knowledge : Knowledge) : Knowledge :=
  if conversation_history.isEmpty then knowledge
  else
    { knowledge with conversations :=
        knowledge.conversations ++ [.batch now conversation_history current_context] }

/-- A document-mutating core operation of one process run. -/
inductive Op where
  | addToKnowledge (now : Str) (current_context : List Str) (query response : Str)
  | saveConversation (now : Str) (conversation_history : List (Str × Str)) (current_context : List Str)

/-- Apply one core operation to the document. -/
def applyOp (knowledge : Knowledge) : Op → Knowledge
  | .addToKnowledge now ctx q r => add_to_knowledge now ctx q r knowledge
  | .saveConversation now h ctx => save_conversation now h ctx knowledge

/-- Apply a sequence of core operations in order. -/
def applyOps (knowledge : Knowledge) (ops : List Op) : Knowledge :=
  ops.foldl applyOp knowledge

/-- The two derived context strings appended per exchange
(lines 294-295): `"User: " + query[:100] + "..."` and
`"Assistant: " + response[:200] + "..."` (the ellipsis is unconditional). -/
def deriveCtx (query response : Str) : List Str :=
  [("User: ").data ++ query.take 100 ++ ("...").data,
   ("Assistant: ").data ++ response.take 200 ++ ("...").data]

/-- The rolling-context update of lines 290-295: trim to the last 6
entries when more than 6 are held, then append the new derived pair. -/
def ctxStep (current_context : List Str) (exchange : Str × Str) : List Str :=
  let ctx2 :=
    if 6 < current_context.length then current_context.drop (current_context.length - 6)
    else current_context
  ctx2 ++ deriveCtx exchange.1 exchange.2

/-- The rolling context after a sequence of recorded exchanges, starting
from the empty context of `__init__`. -/
def runContext (exchanges : List (Str × Str)) : List Str :=
  exchanges.foldl ctxStep []

/-- One search result rendered for the prompt (line 260):
`f"{topic}: {instructions[:200]}"`. -/
def fmtResult (r : Str × InstructionEntry) : Str :=
  r.1 ++ (": ").data ++ r.2.instructions.take 200

/-- The context-string assembly of `handle_user_query` lines 252-265:
join the last 3 context entries when context exists, else join the top 2
formatted search results, else the empty string. -/
def assemble_context (current_context : List Str) (knowledge : Knowledge) (query : Str) : Str :=
  if current_context.isEmpty = false then
    joinLines (current_context.drop (current_context.length - 3))
  else
    let results := search_knowledge knowledge query
    if results.isEmpty = false then joinLines ((results.take 2).map fmtResult)
    else []

/-- The shared tail of both prompt templates (lines 270-279). -/
def promptTail : Str :=
  ("\n\nPlease provide a comprehensive response as a senior developer.").data

/-- The prompt assembly of `handle_user_query` lines 268-279. -/
def make_prompt (current_context : List Str) (knowledge : Knowledge) (query : Str) : Str :=
  let context := assemble_context current_context knowledge query
  if context.isEmpty = false then
    ("Context from previous knowledge:\n").data ++ context ++
      ("\n\nCurrent query: ").data ++ query ++ promptTail
  else ("Query: ").data ++ query ++ promptTail

/-- Outcome of the completion call inside `DeepSeekAPI.query`: a normal
body, a `requests` transport failure carrying its message, or a body not
matching `choices[0].message.content` (KeyError/JSONDecodeError). -/
inductive ApiOutcome where
  | ok (content : Str)
  | transportError (message : Str)
  | malformedResponse
deriving Repr, DecidableEq

/-- `DeepSeekAPI.query` (lines 357-383): both failure kinds are returned
as ordinary strings. -/
def DeepSeekAPI_query (outcome : ApiOutcome) : Str :=
  match outcome with
  | .ok content => content
  | .transportError m => ("API Error: ").data ++ m
  | .malformedResponse => ("Error: Invalid API response format").data

/-- Process-local session state of `InteractiveKnowledgeCLI`. -/
structure Session where
  conversation_history : List (Str × Str)
  current_context : List Str
deriving Repr, DecidableEq

/-- Lines 287-295 of `handle_user_query`: append the user and assistant
turns to the running history, then update the rolling context. -/
def record_response (s : Session) (query response : Str) : Session :=
  { conversation_history :=
      s.conversation_history ++ [(("user").data, query), (("assistant").data, response)]
    current_context := ctxStep s.current_context (query, response) }

/-- The post-completion path of `handle_user_query` (lines 284-300) with
the completion outcome made explicit: the returned string (possibly error
text) is recorded in the session and persisted via `add_to_knowledge`,
whose context snapshot is the already-updated rolling context. -/
def handle_query_response (now : Str) (s : Session) (knowledge : Knowledge)
    (query : Str) (outcome : ApiOutcome) : Session × Knowledge × Str :=
  let response := DeepSeekAPI_query outcome
  let s2 := record_response s query response
  let k2 := add_to_knowledge now s2.current_context query response knowledge
  (s2, k2, response)

/-- The JSON values produced by `json.dump` / consumed by `json.load` for
this document (strings, integers, arrays, objects suffice). -/
inductive Json where
  | str (s : Str)
  | num (n : Nat)
  | arr (xs : List Json)
  | obj (fields : List (Str × Json))

/-- Serialize one `InstructionEntry` value. -/
def encEntry (e : InstructionEntry) : Json :=
  .obj [(("timestamp").data, .str e.timestamp),
        (("instructions").data, .str e.instructions),
        (("usage_count").data, .num e.usage_count),
        (("source_conversation").data, .num e.source_conversation)]

/-- Serialize one history turn `{"role": ..., "content": ...}`. -/
def encTurn (p : Str × Str) : Json :=
  .obj [(("role").data, .str p.1), (("content").data, .str p.2)]

/-- Serialize one conversation record (either shape of §3). -/
def encRecord : ConversationRecord → Json
  | .short t q r ctx =>
    .obj [(("timestamp").data, .str t), (("query").data, .str q),
          (("response").data, .str r), (("context").data, .arr (ctx.map .str))]
  | .batch t h ctx =>
    .obj [(("timestamp").data, .str t), (("history").data, .arr (h.map encTurn)),
          (("context").data, .arr (ctx.map .str))]

/-- Serialize the whole document, as `save_knowledge` line 71 writes it. -/
def encodeKnowledge (k : Knowledge) : Json :=
  .obj [(("summary").data, .arr (k.summary.map .str)),
        (("core_instructions").data, .obj (k.core_instructions.map fun p => (p.1, encEntry p.2))),
        (("api_interactions").data, .arr (k.api_interactions.map .str)),
        (("conversations").data, .arr (k.conversations.map encRecord))]

/-- Field lookup in a JSON object. -/
def jLookup (key : Str) : List (Str × Json) → Option Json
  | [] => none
  | (k0, v) :: rest => if k0 = key then some v else jLookup key rest

/-- Read back a JSON string. -/
def decStr : Json → Option Str
  | .str s => some s
  | _ => none

/-- Read back a list, failing if any element fails. -/
def decListWith (d : Json → Option α) : List Json → Option (List α)
  | [] => some []
  | j :: js =>
    match d j, decListWith d js with
    | some a, some as => some (a :: as)
    | _, _ => none

/-- Read back a JSON array of strings. -/
def decStrList : Json → Option (List Str)
  | .arr xs => decListWith decStr xs
  | _ => none

/-- Read back one `InstructionEntry`. -/
def decEntry : Json → Option InstructionEntry
  | .obj fs =>
    match jLookup (("timestamp").data) fs, jLookup (("instructions").data) fs,
          jLookup (("usage_count").data) fs, jLookup (("source_conversation").data) fs with
    | some (.str t), some (.str i), some (.num u), some (.num s) =>
      some { timestamp := t, instructions := i, usage_count := u, source_conversation := s }
    | _, _, _, _ => none
  | _ => none

/-- Read back one history turn. -/
def decTurn : Json → Option (Str × Str)
  | .obj fs =>
    match jLookup (("role").data) fs, jLookup (("content").data) fs with
    | some (.str r), some (.str c) => some (r, c)
    | _, _ => none
  | _ => none

/-- Read back one conversation record, distinguishing the two shapes by
the presence of a `history` field. -/
def decRecord : Json → Option ConversationRecord
  | .obj fs =>
    match jLookup (("timestamp").data) fs, jLookup (("context").data) fs with
    | some (.str t), some cj =>
      match decStrList cj with
      | some ctx =>
        match jLookup (("history").data) fs with
        | some (.arr hs) =>
          match decListWith decTurn hs with
          | some h => some (.batch t h ctx)
          | none => none
        | some _ => none
        | none =>
          match jLookup (("query").data) fs, jLookup (("response").data) fs with
          | some (.str q), some (.str r) => some (.short t q r ctx)
          | _, _ => none
      | none => none
    | _, _ => none
  | _ => none

/-- Read back the `core_instructions` object, key by key in order. -/
def decEntries : List (Str × Json) → Option (List (Str × InstructionEntry))
  | [] => some []
  | (k0, v) :: rest =>
    match decEntry v, decEntries rest with
    | some e, some es => some ((k0, e) :: es)
    | _, _ => none

/-- Read back a whole document. -/
def decodeKnowledge : Json → Option Knowledge
  | .obj fs =>
    match jLookup (("summary").data) fs, jLookup (("core_instructions").data) fs,
          jLookup (("api_interactions").data) fs, jLookup (("conversations").data) fs with
    | some sj, some (.obj cj), some aj, some (.arr vj) =>
      match decStrList sj, decEntries cj, decStrList aj, decListWith decRecord vj with
      | some s, some c, some a, some v =>
        some { summary := s, core_instructions := c, api_interactions := a, conversations := v }
      | _, _, _, _ => none
    | _, _, _, _ => none
  | _ => none

/-- The backing store file: `none` models a missing or syntactically
unreadable file, `some j` a file parsing to the JSON value `j`. -/
abbrev StoreFile := Option Json

/-- `InteractiveKnowledgeCLI.save_knowledge` (lines 68-71): overwrite the
store with the serialized document. -/
def save_knowledge (k : Knowledge) : StoreFile := some (encodeKnowledge k)

/-- `InteractiveKnowledgeCLI.load_knowledge` (lines 73-79): any
read/parse failure yields the default empty document.  A syntactically
valid file whose shape does not decode is also mapped to the default
(the Python code would hand the ill-shaped raw value to its callers). -/
def load_knowledge (file : StoreFile) : Knowledge :=
  match file with
  | none => default_knowledge
  | some j =>
    match decodeKnowledge j with
    | some k => k
    | none => default_knowledge

theorem containsSub_nil (hay : Str) : containsSub [] hay = true := by
  induction hay with
  | nil => rfl
  | cons c cs ih => simp [containsSub, startsWith]

theorem isEmpty_false_of_ne_nil {α : Type} {l : List α} (h : l ≠ []) : l.isEmpty = false := by
  cases l with
  | nil => exact absurd rfl h
  | cons a t => rfl

theorem joinLines_eq_nil_iff (l : List Str) : joinLines l = [] ↔ l = [] ∨ l = [[]] := by
  match l with
  | [] => simp [joinLines]
  | [s] => simp [joinLines]
  | s :: l2 :: ls => simp [joinLines]

theorem drop_append_le {α : Type} (n : Nat) (l1 l2 : List α) (h : n ≤ l1.length) :
    (l1 ++ l2).drop n = l1.drop n ++ l2 := by
  induction l1 generalizing n with
  | nil => simp_all
  | cons a l ih =>
    cases n with
    | zero => simp
    | succ m => simpa using ih m (by simpa using h)

theorem search_loop_eq_filter (ql : Str) (l : List (Str × InstructionEntry)) :
    search_loop ql l = l.filter (fun p => matchesQuery ql p.1 p.2) := by
  induction l with
  | nil => rfl
  | cons p rest ih =>
    obtain ⟨topic, e⟩ := p
    by_cases h : matchesQuery ql topic e = true
    · simp [search_loop, List.filter_cons, h, ih]
    · simp only [Bool.not_eq_true] at h
      simp [search_loop, List.filter_cons, h, ih]

theorem core_points_loop_eq (ls : List Str) (acc : List Str) (h : acc.length < 3) :
    core_points_loop ls acc =
      acc ++ ((ls.filter isCorePoint).take (3 - acc.length)).map pyStrip := by
  induction ls generalizing acc with
  | nil => simp [core_points_loop]
  | cons l ls ih =>
    by_cases hm : isCorePoint l = true
    · by_cases h3 : 3 ≤ (acc ++ [pyStrip l]).length
      · have hlen : acc.length = 2 := by simp at h3; omega
        have htake : 3 - acc.length = 1 := by omega
        have hstep : core_points_loop (l :: ls) acc = acc ++ [pyStrip l] := by
          simp [core_points_loop, hm, h3]
          intro hc
          exact absurd hlen (by omega)
        rw [hstep, List.filter_cons_of_pos hm, htake]
        simp
      · have hlt : (acc ++ [pyStrip l]).length < 3 := by omega
        have hsub : 3 - acc.length = (3 - (acc ++ [pyStrip l]).length) + 1 := by
          simp; simp at hlt; omega
        simp only [core_points_loop, hm, if_true, h3, if_false, ih _ hlt,
          List.filter_cons, hsub, List.take_succ_cons, List.map_cons]
        simp
    · simp only [Bool.not_eq_true] at hm
      simp [core_points_loop, hm, List.filter_cons, ih _ h]

theorem core_points_loop_nil_eq (ls : List Str) :
    core_points_loop ls [] = ((ls.filter isCorePoint).take 3).map pyStrip := by
  simpa using core_points_loop_eq ls [] (by simp)

theorem hasKey_assocSet (t key : Str) (e : InstructionEntry)
    (l : List (Str × InstructionEntry)) (h : hasKey t l = true) :
    hasKey t (assocSet key e l) = true := by
  induction l with
  | nil => simp [hasKey] at h
  | cons p rest ih =>
    obtain ⟨k0, e0⟩ := p
    by_cases hk : k0 = key
    · subst hk
      simpa [assocSet, hasKey] using h
    · simp only [assocSet, if_neg hk]
      simp only [hasKey, Bool.or_eq_true] at h ⊢
      rcases h with h | h
      · exact Or.inl h
      · exact Or.inr (ih h)

theorem mem_assocSet (p : Str × InstructionEntry) (key : Str) (e : InstructionEntry)
    (l : List (Str × InstructionEntry)) (h : p ∈ assocSet key e l) :
    p = (key, e) ∨ p ∈ l := by
  induction l with
  | nil => simpa [assocSet] using h
  | cons q rest ih =>
    obtain ⟨k0, e0⟩ := q
    by_cases hk : k0 = key
    · subst hk
      simp [assocSet] at h
      rcases h with h | h
      · exact Or.inl h
      · exact Or.inr (List.mem_cons_of_mem _ h)
    · simp only [assocSet, if_neg hk, List.mem_cons] at h
      rcases h with h | h
      · exact Or.inr (by simp [h])
      · rcases ih h with h2 | h2
        · exact Or.inl h2
        · exact Or.inr (List.mem_cons_of_mem _ h2)

/-- The derived context entries of a sequence of exchanges, two per
exchange, in order. -/
def ctxBlocks : List (Str × Str) → List Str
  | [] => []
  | p :: ps => deriveCtx p.1 p.2 ++ ctxBlocks ps

theorem ctxBlocks_append (l1 l2 : List (Str × Str)) :
    ctxBlocks (l1 ++ l2) = ctxBlocks l1 ++ ctxBlocks l2 := by
  induction l1 with
  | nil => rfl
  | cons p ps ih => simp [ctxBlocks, ih]

theorem ctxBlocks_length (l : List (Str × Str)) :
    (ctxBlocks l).length = 2 * l.length := by
  induction l with
  | nil => rfl
  | cons p ps ih => simp [ctxBlocks, deriveCtx, ih]; omega

theorem runContext_concat (exs : List (Str × Str)) (ex : Str × Str) :
    runContext (exs ++ [ex]) = ctxStep (runContext exs) ex := by
  simp [runContext, List.foldl_append]

theorem ctxStep_formula (exs : List (Str × Str)) (ex : Str × Str) :
    ctxStep (ctxBlocks (exs.drop (exs.length - 4))) ex =
      ctxBlocks ((exs ++ [ex]).drop ((exs ++ [ex]).length - 4)) := by
  by_cases hn : exs.length ≤ 3
  · have h0 : exs.length - 4 = 0 := by omega
    have h1 : (exs ++ [ex]).length - 4 = 0 := by simp; omega
    have hlen : (ctxBlocks exs).length ≤ 6 := by rw [ctxBlocks_length]; omega
    rw [h0, h1, List.drop_zero, List.drop_zero, ctxBlocks_append]
    simp only [ctxStep, ctxBlocks, List.append_nil]
    rw [if_neg (by omega)]
  · have h4 : 4 ≤ exs.length := by omega
    have hlenL : (exs.drop (exs.length - 4)).length = 4 := by
      rw [List.length_drop]; omega
    cases hd : exs.drop (exs.length - 4) with
    | nil => rw [hd] at hlenL; simp at hlenL
    | cons p L2 =>
      rw [hd] at hlenL
      have hL2 : L2 = exs.drop (exs.length - 3) := by
        have ht := List.tail_drop exs (exs.length - 4)
        rw [hd] at ht
        simpa [show exs.length - 4 + 1 = exs.length - 3 by omega] using ht
      have hblen : (ctxBlocks (p :: L2)).length = 8 := by
        rw [ctxBlocks_length]
        simp only [List.length_cons] at hlenL ⊢
        omega
      have h6 : 6 < (ctxBlocks (p :: L2)).length := by rw [hblen]; omega
      have hidx : (exs ++ [ex]).length - 4 = exs.length - 3 := by simp
      simp only [ctxStep, if_pos h6, hblen, hidx]
      rw [drop_append_le (exs.length - 3) exs [ex] (by omega), ctxBlocks_append]
      simp only [ctxBlocks, deriveCtx, List.append_nil]
      rw [← hL2]
      simp

theorem runContext_eq (exs : List (Str × Str)) :
    runContext exs = ctxBlocks (exs.drop (exs.length - 4)) := by
  induction exs using List.reverseRecOn with
  | nil => rfl
  | append_singleton exs ex ih =>
    rw [runContext_concat, ih, ctxStep_formula]

theorem decListWith_decStr_map (l : List Str) :
    decListWith decStr (l.map Json.str) = some l := by
  induction l with
  | nil => rfl
  | cons s t ih => simp [decListWith, decStr, ih]

theorem decStrList_map (l : List Str) :
    decStrList (Json.arr (l.map Json.str)) = some l := by
  simp [decStrList, decListWith_decStr_map]

theorem decTurn_encTurn (p : Str × Str) : decTurn (encTurn p) = some p := rfl

theorem decListWith_decTurn_map (l : List (Str × Str)) :
    decListWith decTurn (l.map encTurn) = some l := by
  induction l with
  | nil => rfl
  | cons p t ih => simp [decListWith, decTurn_encTurn, ih]

theorem decRecord_encRecord (c : ConversationRecord) :
    decRecord (encRecord c) = some c := by
  cases c with
  | short t q r ctx =>
    simp [encRecord, decRecord, jLookup, decStrList_map]
  | batch t h ctx =>
    simp [encRecord, decRecord, jLookup, decStrList_map, decListWith_decTurn_map]

theorem decListWith_decRecord_map (l : List ConversationRecord) :
    decListWith decRecord (l.map encRecord) = some l := by
  induction l with
  | nil => rfl
  | cons c t ih => simp [decListWith, decRecord_encRecord, ih]

theorem decEntry_encEntry (e : InstructionEntry) : decEntry (encEntry e) = some e := rfl

theorem decEntries_map (l : List (Str × InstructionEntry)) :
    decEntries (l.map fun p => (p.1, encEntry p.2)) = some l := by
  induction l with
  | nil => rfl
  | cons p t ih => simp [decEntries, decEntry_encEntry, ih]

theorem decodeKnowledge_encodeKnowledge (k : Knowledge) :
    decodeKnowledge (encodeKnowledge k) = some k := by
  simp [encodeKnowledge, decodeKnowledge, jLookup, decStrList_map, decEntries_map,
    decListWith_decRecord_map]

theorem add_conversations_eq (now : Str) (ctx : List Str) (q r : Str) (k : Knowledge) :
    (add_to_knowledge now ctx q r k).conversations =
      k.conversations ++ [.short now (q.take 500) (r.take 1000) ctx] := by
  by_cases hc : (core_points_loop (splitLines r) []).isEmpty <;>
    simp [add_to_knowledge, hc]

/-- C7: saving a document through the Storage Gateway and then reloading
it yields a document identical field-for-field to the one saved (no
concurrent writer is modelled). -/
theorem save_load_round_trip_spec (k : Knowledge) :
    load_knowledge (save_knowledge k) = k := by
  simp [save_knowledge, load_knowledge, decodeKnowledge_encodeKnowledge]

/-- C6: when the backing file is missing or unparseable, `load_knowledge`
returns the default empty document, whose four top-level fields are all
present and empty, and never propagates a failure to the caller. -/
theorem load_default_on_failure_spec :
    load_knowledge none = default_knowledge ∧
    (∀ j : Json, decodeKnowledge j = none → load_knowledge (some j) = default_knowledge) ∧
    default_knowledge.summary = [] ∧ default_knowledge.core_instructions = [] ∧
    default_knowledge.api_interactions = [] ∧ default_knowledge.conversations = [] := by
  refine ⟨rfl, ?_, rfl, rfl, rfl, rfl⟩
  intro j hj
  simp [load_knowledge, hj]

theorem load_default_on_failure_spec_witness :
    decodeKnowledge (Json.num 0) = none ∧
    load_knowledge (some (Json.num 0)) = default_knowledge :=
  ⟨rfl, load_default_on_failure_spec.2.1 (Json.num 0) rfl⟩

/-- C10: searching with the empty query returns every stored entry, in
store order, because the empty string is a substring of every topic. -/
theorem empty_query_returns_all_spec (k : Knowledge) :
    search_knowledge k ([] : Str) = k.core_instructions := by
  have h : ∀ p ∈ k.core_instructions, matchesQuery (lowerStr []) p.1 p.2 = true := by
    intro p hp
    simp [matchesQuery, lowerStr, containsSub_nil]
  simp only [search_knowledge, search_loop_eq_filter]
  exact List.filter_eq_self.mpr h

/-- C3: search returns exactly the stored entries whose topic key or
instruction text contains the query as a case-insensitive substring, in
the mapping's insertion order with no limit; the empty store yields the
empty list (never an error), and an entry whose instructions mention
`B-tree` is returned for the differently-cased query `b-tree`. -/
theorem search_filter_spec (k : Knowledge) (q : Str) :
    search_knowledge k q =
      k.core_instructions.filter (fun p => matchesQuery (lowerStr q) p.1 p.2) ∧
    search_knowledge default_knowledge q = [] ∧
    search_knowledge
      { summary := [], api_interactions := [], conversations := [],
        core_instructions :=
          [((("database indexing").data),
            { timestamp := [], instructions := (("Use a B-tree for range scans").data),
              usage_count := 1, source_conversation := 0 })] }
      (("b-tree").data) =
      [((("database indexing").data),
        { timestamp := [], instructions := (("Use a B-tree for range scans").data),
          usage_count := 1, source_conversation := 0 })] :=
  ⟨search_loop_eq_filter _ _, rfl, by decide⟩

/-- C5: every call to `add_to_knowledge` appends exactly one short-form
record, with the stored query truncated to its first 500 characters and
the stored response to its first 1000 (so a 600-character query keeps
exactly 500 characters and a 1500-character response exactly 1000); with
zero marker-matching lines the record is still appended while
`core_instructions` is left untouched. -/
theorem conversation_truncation_spec (now : Str) (ctx : List Str) (q r : Str) (k : Knowledge) :
    (add_to_knowledge now ctx q r k).conversations =
      k.conversations ++ [.short now (q.take 500) (r.take 1000) ctx] ∧
    (q.length = 600 → (q.take 500).length = 500) ∧
    (r.length = 1500 → (r.take 1000).length = 1000) ∧
    ((splitLines r).filter isCorePoint = [] →
      (add_to_knowledge now ctx q r k).core_instructions = k.core_instructions) := by
  refine ⟨add_conversations_eq now ctx q r k, ?_, ?_, ?_⟩
  · intro h; simp [List.length_take, h]
  · intro h; simp [List.length_take, h]
  · intro h
    have hc : (core_points_loop (splitLines r) []).isEmpty = true := by
      rw [core_points_loop_nil_eq, h]
      rfl
    simp [add_to_knowledge, hc]

theorem splitLines_no_nl (s : Str) (h : ∀ c ∈ s, c ≠ '\n') : splitLines s = [s] := by
  induction s with
  | nil => rfl
  | cons c cs ih =>
    have hc : c ≠ '\n' := h c (List.mem_cons_self c cs)
    have hcs := ih (fun d hd => h d (List.mem_cons_of_mem c hd))
    simp [splitLines, hcs, hc]

theorem dropWhile_ws_replicate_x (n : Nat) :
    List.dropWhile Char.isWhitespace (List.replicate n 'x') = List.replicate n 'x' := by
  cases n with
  | zero => rfl
  | succ m => rw [List.replicate_succ, List.dropWhile_cons_of_neg (by decide)]

theorem pyStrip_replicate_x (n : Nat) :
    pyStrip (List.replicate n 'x') = List.replicate n 'x' := by
  simp [pyStrip, dropWhile_ws_replicate_x]

theorem markers_any_replicate_x (n : Nat) :
    markers.any (fun mk => startsWith mk (List.replicate n 'x')) = false := by
  cases n with
  | zero => decide
  | succ m =>
    rw [List.replicate_succ]
    simp [markers, startsWith]

theorem containsSub_replicate_x (c0 : Char) (rest : Str) (hc : c0 ≠ 'x') (n : Nat) :
    containsSub (c0 :: rest) (List.replicate n 'x') = false := by
  induction n with
  | zero => simp [containsSub]
  | succ m ih =>
    rw [List.replicate_succ]
    simp [containsSub, startsWith, hc, ih]

theorem isCorePoint_replicate_x (n : Nat) : isCorePoint (List.replicate n 'x') = false := by
  have hlow : Char.toLower 'x' = 'x' := by decide
  simp only [isCorePoint, pyStrip_replicate_x, lowerStr, List.map_replicate, hlow]
  rw [markers_any_replicate_x n,
      containsSub_replicate_x 'k' _ (by decide) n,
      containsSub_replicate_x 'i' _ (by decide) n]
  rfl

theorem filter_core_replicate_x :
    (splitLines (List.replicate 1500 'x')).filter isCorePoint = [] := by
  rw [splitLines_no_nl _ (fun c hc => by rw [List.eq_of_mem_replicate hc]; decide),
    List.filter_cons_of_neg (by rw [isCorePoint_replicate_x]; decide)]
  rfl

theorem conversation_truncation_spec_witness :
    ((List.replicate 600 'a').take 500).length = 500 ∧
    ((List.replicate 1500 'x').take 1000).length = 1000 ∧
    (add_to_knowledge [] [] (List.replicate 600 'a') (List.replicate 1500 'x')
        default_knowledge).core_instructions = default_knowledge.core_instructions ∧
    (add_to_knowledge [] [] (List.replicate 600 'a') (List.replicate 1500 'x')
        default_knowledge).conversations =
      default_knowledge.conversations ++
        [.short [] ((List.replicate 600 'a').take 500)
          ((List.replicate 1500 'x').take 1000) []] :=
  ⟨(conversation_truncation_spec [] [] (List.replicate 600 'a') (List.replicate 1500 'x')
      default_knowledge).2.1 (List.length_replicate 600 'a'),
   (conversation_truncation_spec [] [] (List.replicate 600 'a') (List.replicate 1500 'x')
      default_knowledge).2.2.1 (List.length_replicate 1500 'x'),
   (conversation_truncation_spec [] [] (List.replicate 600 'a') (List.replicate 1500 'x')
      default_knowledge).2.2.2 filter_core_replicate_x,
   (conversation_truncation_spec [] [] (List.replicate 600 'a') (List.replicate 1500 'x')
      default_knowledge).1⟩

/-- C1 counterexample: for the response `"  - a\n  - b\n  - c"` (three
marker-matching lines, each carrying leading whitespace) the stored
`instructions` value is the stripped lines `"- a\n- b\n- c"`, not the
first 3 matching lines as they appear in the source response. -/
theorem extract_keeps_stripped_lines_counterexample :
    3 ≤ ((splitLines (("  - a\n  - b\n  - c").data)).filter isCorePoint).length ∧
    joinLines (((splitLines (("  - a\n  - b\n  - c").data)).filter isCorePoint).take 3) =
      ("  - a\n  - b\n  - c").data ∧
    (add_to_knowledge ['t'] [] ['q'] (("  - a\n  - b\n  - c").data)
        default_knowledge).core_instructions ≠
      [(['q'], { timestamp := ['t'], instructions := ("  - a\n  - b\n  - c").data,
                 usage_count := 1, source_conversation := 0 })] ∧
    (add_to_knowledge ['t'] [] ['q'] (("  - a\n  - b\n  - c").data)
        default_knowledge).core_instructions =
      [(['q'], { timestamp := ['t'], instructions := ("- a\n- b\n- c").data,
                 usage_count := 1, source_conversation := 0 })] :=
  ⟨by decide, by decide, by decide, by decide⟩

/-- C1 amended: for every response with at least 3 marker-matching lines,
`add_to_knowledge` writes exactly one `core_instructions` entry keyed by
the first 50 characters of the query (`...` appended iff the query
exceeds 50 characters), whose `instructions` are the first 3 matching
lines in source order, *each stripped of leading and trailing
whitespace*, newline-joined, and whose `source_conversation` is the index
of the conversation record appended in the same call. -/
theorem extract_and_store_amended (now : Str) (ctx : List Str) (q r : Str) (k : Knowledge)
    (h : 3 ≤ ((splitLines r).filter isCorePoint).length) :
    (add_to_knowledge now ctx q r k).core_instructions =
      assocSet (q.take 50 ++ (if 50 < q.length then ['.', '.', '.'] else []))
        { timestamp := now
          instructions := joinLines ((((splitLines r).filter isCorePoint).take 3).map pyStrip)
          usage_count := 1
          source_conversation := k.conversations.length }
        k.core_instructions ∧
    (add_to_knowledge now ctx q r k).conversations =
      k.conversations ++ [.short now (q.take 500) (r.take 1000) ctx] := by
  refine ⟨?_, add_conversations_eq now ctx q r k⟩
  have htake : (((splitLines r).filter isCorePoint).take 3) ≠ [] := by
    intro hnil
    rcases List.take_eq_nil_iff.mp hnil with h3 | hf
    · exact absurd h3 (by omega)
    · rw [hf] at h
      simp at h
  have hne : (core_points_loop (splitLines r) []).isEmpty = false := by
    rw [core_points_loop_nil_eq]
    exact isEmpty_false_of_ne_nil (fun hm => htake (List.map_eq_nil_iff.mp hm))
  have hfa : ¬ ∀ a ∈ splitLines r, isCorePoint a = false := by
    intro hall
    have hnil : (splitLines r).filter isCorePoint = [] :=
      List.filter_eq_nil_iff.mpr (fun a ha => by simp [hall a ha])
    rw [hnil] at h
    simp at h
  simp [add_to_knowledge, hne, core_points_loop_nil_eq, mkTopic, hfa]

theorem extract_and_store_amended_witness :
    3 ≤ ((splitLines (("  - a\n  - b\n  - c").data)).filter isCorePoint).length ∧
    (add_to_knowledge ['t'] [] ['q'] (("  - a\n  - b\n  - c").data)
        default_knowledge).core_instructions =
      assocSet ((['q'] : Str).take 50 ++
          (if 50 < (['q'] : Str).length then ['.', '.', '.'] else []))
        { timestamp := ['t']
          instructions := joinLines ((((splitLines (("  - a\n  - b\n  - c").data)).filter
            isCorePoint).take 3).map pyStrip)
          usage_count := 1
          source_conversation := default_knowledge.conversations.length }
        default_knowledge.core_instructions ∧
    (add_to_knowledge ['t'] [] ['q'] (("  - a\n  - b\n  - c").data)
        default_knowledge).conversations =
      default_knowledge.conversations ++
        [.short ['t'] ((['q'] : Str).take 500) ((("  - a\n  - b\n  - c").data).take 1000) []] :=
  ⟨by decide,
   (extract_and_store_amended ['t'] [] ['q'] (("  - a\n  - b\n  - c").data)
      default_knowledge (by decide)).1,
   (extract_and_store_amended ['t'] [] ['q'] (("  - a\n  - b\n  - c").data)
      default_knowledge (by decide)).2⟩

/-- C2 counterexample: after 4 recorded exchanges (N > 3) the rolling
context holds 8 entries, exceeding the claimed bound of 6 — the trim of
lines 291-292 runs before the append, so the steady state is 8 entries
covering the 4 most recent exchanges. -/
theorem context_window_counterexample :
    3 < ([((['a'] : Str), (['b'] : Str)), (['a'], ['b']), (['a'], ['b']),
          (['a'], ['b'])] : List (Str × Str)).length ∧
    6 < (runContext [((['a'] : Str), (['b'] : Str)), (['a'], ['b']), (['a'], ['b']),
          (['a'], ['b'])]).length :=
  ⟨by decide, by decide⟩

/-- C2 amended: after any sequence of recorded exchanges the rolling
context equals the two derived strings of each of the `min N 4` most
recent exchanges in order; it never exceeds 8 entries, and for N > 3 it
holds exactly 8 entries, reflecting the 4 (not 3) most recent
exchanges. -/
theorem context_window_amended (exs : List (Str × Str)) :
    runContext exs = ctxBlocks (exs.drop (exs.length - 4)) ∧
    (runContext exs).length ≤ 8 ∧
    (3 < exs.length → (runContext exs).length = 8) := by
  refine ⟨runContext_eq exs, ?_, ?_⟩
  · rw [runContext_eq, ctxBlocks_length, List.length_drop]
    omega
  · intro h
    rw [runContext_eq, ctxBlocks_length, List.length_drop]
    omega

theorem context_window_amended_witness :
    (runContext [((['a'] : Str), (['b'] : Str)), (['c'], ['d']), (['e'], ['f']),
      (['g'], ['h'])]).length = 8 :=
  (context_window_amended _).2.2 (by decide)

theorem add_core_cases (now : Str) (ctx : List Str) (q r : Str) (k : Knowledge) :
    (add_to_knowledge now ctx q r k).core_instructions = k.core_instructions ∨
    ∃ e : InstructionEntry, e.usage_count = 1 ∧
      (add_to_knowledge now ctx q r k).core_instructions =
        assocSet (mkTopic q) e k.core_instructions := by
  by_cases hc : (core_points_loop (splitLines r) []).isEmpty
  · left
    simp [add_to_knowledge, hc]
  · right
    refine ⟨{ timestamp := now
              instructions := joinLines (core_points_loop (splitLines r) [])
              usage_count := 1
              source_conversation :=
                (k.conversations ++
                  [ConversationRecord.short now (q.take 500) (r.take 1000) ctx]).length - 1 },
            rfl, ?_⟩
    simp [add_to_knowledge, hc]

theorem save_core_eq (now : Str) (h : List (Str × Str)) (ctx : List Str) (k : Knowledge) :
    (save_conversation now h ctx k).core_instructions = k.core_instructions := by
  by_cases hh : h.isEmpty <;> simp [save_conversation, hh]

theorem applyOp_conversations (k : Knowledge) (op : Op) :
    ∃ tail, (applyOp k op).conversations = k.conversations ++ tail := by
  cases op with
  | addToKnowledge now ctx q r =>
    exact ⟨[.short now (q.take 500) (r.take 1000) ctx], add_conversations_eq now ctx q r k⟩
  | saveConversation now h ctx =>
    by_cases hh : h.isEmpty
    · exact ⟨[], by simp [applyOp, save_conversation, hh]⟩
    · exact ⟨[.batch now h ctx], by simp [applyOp, save_conversation, hh]⟩

theorem applyOp_hasKey (k : Knowledge) (op : Op) (t : Str)
    (h : hasKey t k.core_instructions = true) :
    hasKey t (applyOp k op).core_instructions = true := by
  cases op with
  | addToKnowledge now ctx q r =>
    rcases add_core_cases now ctx q r k with heq | ⟨e, _, heq⟩
    · rw [show applyOp k (.addToKnowledge now ctx q r) = add_to_knowledge now ctx q r k from rfl,
        heq]
      exact h
    · rw [show applyOp k (.addToKnowledge now ctx q r) = add_to_knowledge now ctx q r k from rfl,
        heq]
      exact hasKey_assocSet t (mkTopic q) e k.core_instructions h
  | saveConversation now hst ctx =>
    rw [show applyOp k (.saveConversation now hst ctx) = save_conversation now hst ctx k from rfl,
      save_core_eq]
    exact h

theorem applyOp_usage (k : Knowledge) (op : Op)
    (h : ∀ p ∈ k.core_instructions, p.2.usage_count = 1) :
    ∀ p ∈ (applyOp k op).core_instructions, p.2.usage_count = 1 := by
  cases op with
  | addToKnowledge now ctx q r =>
    rcases add_core_cases now ctx q r k with heq | ⟨e, he, heq⟩
    · rw [show applyOp k (.addToKnowledge now ctx q r) = add_to_knowledge now ctx q r k from rfl,
        heq]
      exact h
    · rw [show applyOp k (.addToKnowledge now ctx q r) = add_to_knowledge now ctx q r k from rfl,
        heq]
      intro p hp
      rcases mem_assocSet p (mkTopic q) e k.core_instructions hp with hpe | hpm
      · rw [hpe]
        exact he
      · exact h p hpm
  | saveConversation now hst ctx =>
    rw [show applyOp k (.saveConversation now hst ctx) = save_conversation now hst ctx k from rfl,
      save_core_eq]
    exact h

theorem applyOps_conversations (k : Knowledge) (ops : List Op) :
    ∃ tail, (applyOps k ops).conversations = k.conversations ++ tail := by
  induction ops generalizing k with
  | nil => exact ⟨[], by simp [applyOps]⟩
  | cons op ops ih =>
    obtain ⟨t1, h1⟩ := applyOp_conversations k op
    obtain ⟨t2, h2⟩ := ih (applyOp k op)
    refine ⟨t1 ++ t2, ?_⟩
    have hstep : applyOps k (op :: ops) = applyOps (applyOp k op) ops := rfl
    rw [hstep, h2, h1, List.append_assoc]

theorem applyOps_hasKey (k : Knowledge) (ops : List Op) (t : Str)
    (h : hasKey t k.core_instructions = true) :
    hasKey t (applyOps k ops).core_instructions = true := by
  induction ops generalizing k with
  | nil => exact h
  | cons op ops ih =>
    have hstep : applyOps k (op :: ops) = applyOps (applyOp k op) ops := rfl
    rw [hstep]
    exact ih (applyOp k op) (applyOp_hasKey k op t h)

theorem applyOps_usage (k : Knowledge) (ops : List Op)
    (h : ∀ p ∈ k.core_instructions, p.2.usage_count = 1) :
    ∀ p ∈ (applyOps k ops).core_instructions, p.2.usage_count = 1 := by
  induction ops generalizing k with
  | nil => exact h
  | cons op ops ih =>
    have hstep : applyOps k (op :: ops) = applyOps (applyOp k op) ops := rfl
    rw [hstep]
    exact ih (applyOp k op) (applyOp_usage k op h)

/-- C8: across any sequence of core operations within a process run,
`conversations` is append-only (existing entries are never edited or
deleted), `core_instructions` keys are never deleted (entries are only
created, or overwritten in place on key collision), and every entry's
`usage_count` is 1 whenever it was 1 in every pre-existing entry — new
entries are always created with `usage_count = 1` and never
incremented. -/
theorem append_only_invariants_spec (k : Knowledge) (ops : List Op) :
    (∃ tail, (applyOps k ops).conversations = k.conversations ++ tail) ∧
    (∀ t, hasKey t k.core_instructions = true →
      hasKey t (applyOps k ops).core_instructions = true) ∧
    ((∀ p ∈ k.core_instructions, p.2.usage_count = 1) →
      ∀ p ∈ (applyOps k ops).core_instructions, p.2.usage_count = 1) :=
  ⟨applyOps_conversations k ops,
   fun t h => applyOps_hasKey k ops t h,
   fun h => applyOps_usage k ops h⟩

theorem append_only_invariants_spec_witness :
    (∃ tail,
      (applyOps
        { summary := [], api_interactions := [], conversations := [],
          core_instructions := [((("a").data),
            { timestamp := [], instructions := [], usage_count := 1,
              source_conversation := 0 })] }
        [.addToKnowledge [] [] ['q'] (("1. x").data)]).conversations =
      ([] : List ConversationRecord) ++ tail) ∧
    hasKey (("a").data)
      (applyOps
        { summary := [], api_interactions := [], conversations := [],
          core_instructions := [((("a").data),
            { timestamp := [], instructions := [], usage_count := 1,
              source_conversation := 0 })] }
        [.addToKnowledge [] [] ['q'] (("1. x").data)]).core_instructions = true ∧
    ∀ p ∈ (applyOps
        { summary := [], api_interactions := [], conversations := [],
          core_instructions := [((("a").data),
            { timestamp := [], instructions := [], usage_count := 1,
              source_conversation := 0 })] }
        [.addToKnowledge [] [] ['q'] (("1. x").data)]).core_instructions,
      p.2.usage_count = 1 :=
  ⟨(append_only_invariants_spec _ _).1,
   (append_only_invariants_spec _ _).2.1 (("a").data) (by decide),
   (append_only_invariants_spec _ _).2.2 (by decide)⟩

/-- C9: a transport failure or a malformed response body makes
`DeepSeekAPI.query` return the error text as an ordinary string, so the
query pipeline handles it exactly like a successful completion whose
content is that text: the error text is appended to the conversation
history and to the rolling context, and is persisted through
`add_to_knowledge` — where marker lines inside the error text can
themselves spawn a `core_instructions` entry. -/
theorem api_error_as_response_spec (now : Str) (s : Session) (k : Knowledge) (q m : Str) :
    DeepSeekAPI_query (.transportError m) = ("API Error: ").data ++ m ∧
    DeepSeekAPI_query .malformedResponse = ("Error: Invalid API response format").data ∧
    handle_query_response now s k q (.transportError m) =
      handle_query_response now s k q (.ok (("API Error: ").data ++ m)) ∧
    handle_query_response now s k q .malformedResponse =
      handle_query_response now s k q (.ok (("Error: Invalid API response format").data)) ∧
    (handle_query_response now s k q (.transportError m)).1.conversation_history =
      s.conversation_history ++
        [(("user").data, q), (("assistant").data, ("API Error: ").data ++ m)] ∧
    (∃ pre, (handle_query_response now s k q (.transportError m)).1.current_context =
      pre ++ [("Assistant: ").data ++ (("API Error: ").data ++ m).take 200 ++ ("...").data]) ∧
    (handle_query_response now s k q (.transportError m)).2.1.conversations =
      k.conversations ++
        [.short now (q.take 500) ((("API Error: ").data ++ m).take 1000)
          (ctxStep s.current_context (q, ("API Error: ").data ++ m))] ∧
    hasKey (mkTopic ['q'])
      (handle_query_response [] ⟨[], []⟩ default_knowledge ['q']
        (.transportError (("\n1. x\n2. y\n3. z").data))).2.1.core_instructions = true := by
  refine ⟨rfl, rfl, rfl, rfl, rfl, ?_, ?_, by decide⟩
  · refine ⟨(if 6 < s.current_context.length then
        s.current_context.drop (s.current_context.length - 6)
      else s.current_context) ++
        [("User: ").data ++ q.take 100 ++ ("...").data], ?_⟩
    simp [handle_query_response, record_response, ctxStep, deriveCtx, DeepSeekAPI_query]
  · exact add_conversations_eq now
      (ctxStep s.current_context (q, ("API Error: ").data ++ m)) q
      (("API Error: ").data ++ m) k

theorem fmtResult_ne_nil (r : Str × InstructionEntry) : fmtResult r ≠ [] := by
  simp [fmtResult]

theorem joinLines_map_fmt_ne_nil (x : Str × InstructionEntry)
    (xs : List (Str × InstructionEntry)) :
    joinLines (((x :: xs).take 2).map fmtResult) ≠ [] := by
  intro hnil
  rcases (joinLines_eq_nil_iff _).mp hnil with hc | hc
  · rw [List.take_succ_cons, List.map_cons] at hc
    exact List.cons_ne_nil _ _ hc
  · rw [List.take_succ_cons, List.map_cons] at hc
    have : fmtResult x = [] := (List.cons_eq_cons.mp hc).1
    exact fmtResult_ne_nil x this

theorem joinLines_last3_ne_nil (ctx : List Str) (hne : ctx ≠ [])
    (hmem : ∀ s ∈ ctx, s ≠ ([] : Str)) :
    joinLines (ctx.drop (ctx.length - 3)) ≠ [] := by
  intro hnil
  rcases (joinLines_eq_nil_iff _).mp hnil with hc | hc
  · have := congrArg List.length hc
    rw [List.length_drop] at this
    simp at this
    exact hne (List.length_eq_zero.mp (by omega))
  · have : ([] : Str) ∈ ctx.drop (ctx.length - 3) := by rw [hc]; exact List.mem_cons_self _ _
    exact hmem [] (List.mem_of_mem_drop this) rfl

/-- C4: per turn, when the rolling context is non-empty the prompt is
built from its last 3 entries plus the query and the knowledge search is
skipped entirely (the prompt is independent of the stored document);
otherwise, when search returns results, the prompt is built from the top
2 results (topic plus first 200 characters of its instructions) plus the
query; otherwise the prompt contains the query alone.  The hypothesis
that context entries are non-empty holds for all reachable contexts,
whose entries all start with `User: ` or `Assistant: `. -/
theorem prompt_assembly_spec (ctx : List Str) (k : Knowledge) (q : Str)
    (hmem : ∀ s ∈ ctx, s ≠ ([] : Str)) :
    (ctx ≠ [] →
      (∀ k2 : Knowledge, make_prompt ctx k2 q = make_prompt ctx k q) ∧
      make_prompt ctx k q =
        ("Context from previous knowledge:\n").data ++
          joinLines (ctx.drop (ctx.length - 3)) ++
          ("\n\nCurrent query: ").data ++ q ++ promptTail) ∧
    (ctx = [] → search_knowledge k q ≠ [] →
      make_prompt ctx k q =
        ("Context from previous knowledge:\n").data ++
          joinLines (((search_knowledge k q).take 2).map fmtResult) ++
          ("\n\nCurrent query: ").data ++ q ++ promptTail) ∧
    (ctx = [] → search_knowledge k q = [] →
      make_prompt ctx k q = ("Query: ").data ++ q ++ promptTail) := by
  refine ⟨?_, ?_, ?_⟩
  · intro hne
    obtain ⟨c, cs, rfl⟩ : ∃ c cs, ctx = c :: cs := by
      cases ctx with
      | nil => exact absurd rfl hne
      | cons c cs => exact ⟨c, cs, rfl⟩
    have hctx : joinLines ((c :: cs).drop ((c :: cs).length - 3)) ≠ [] :=
      joinLines_last3_ne_nil (c :: cs) (List.cons_ne_nil c cs) hmem
    constructor
    · intro k2
      rfl
    · simp only [make_prompt, assemble_context, List.isEmpty_cons, eq_self_iff_true, if_true]
      rw [if_pos (isEmpty_false_of_ne_nil hctx)]
  · intro hc hres
    subst hc
    obtain ⟨x, xs, hx⟩ : ∃ x xs, search_knowledge k q = x :: xs := by
      cases hs : search_knowledge k q with
      | nil => exact absurd hs hres
      | cons x xs => exact ⟨x, xs, rfl⟩
    have hblock := joinLines_map_fmt_ne_nil x xs
    simp only [make_prompt, assemble_context, List.isEmpty_nil, Bool.true_eq_false, if_false,
      hx, List.isEmpty_cons, eq_self_iff_true, if_true]
    rw [if_pos (isEmpty_false_of_ne_nil hblock)]
  · intro hc hres
    subst hc
    simp only [make_prompt, assemble_context, hres, List.isEmpty_nil, Bool.true_eq_false,
      if_false]

theorem prompt_assembly_spec_witness :
    make_prompt [("User: hi...").data] default_knowledge ['q'] =
      ("Context from previous knowledge:\n").data ++
        joinLines (([("User: hi...").data] : List Str).drop
          (([("User: hi...").data] : List Str).length - 3)) ++
        ("\n\nCurrent query: ").data ++ ['q'] ++ promptTail :=
  ((prompt_assembly_spec [("User: hi...").data] default_knowledge ['q']
      (by decide)).1 (by simp)).2
